import Mathlib

/-!
Verification development for `cutout.py` (MCVCM cutout generator).

The file shallowly embeds the parts of the script that the specification's
claims are about:

* `get_background_variance` (lines 92-115): the iterative sigma-clipped
  variance estimator.  NumPy floats are modelled by `Option ℚ` where `none`
  stands for NaN; every IEEE comparison with NaN is false, which the
  embedding reproduces explicitly.  The clipping threshold
  `mean + sigma_clip * nanstd(subset)` involves a square root, which has no
  exact rational representative; the comparison `|x| < mean + σ·√v` is
  therefore encoded by the exactly equivalent rational test
  `|x| - mean < 0 ∨ (|x| - mean)² < σ²·v` (valid for `σ, v ≥ 0`, which holds
  at every call: `v` is a variance and `σ` the sigma-clip parameter).
* `arr_slice` (lines 129-146) and the slicer built in `cutouts`
  (lines 283-288): 2-d arrays become `NpArr` (explicit shape plus row list,
  so that the column count of an empty slice is still known, as in NumPy),
  and Python slice normalisation (negative indices wrap, bounds clamp) is
  `pySliceBound`.
* the contour-level computation of `cutouts2` (lines 208-210), with the
  multiplier `3` generalised to a parameter `k` as in the spec's
  `ContourLevelGenerator`; `floor(log2 ratio)` is computed exactly over ℚ.
* the module-level name environment and the statement list of `cutouts2`
  (lines 149-241), to settle the NameError claim.
* Python's `int()` conversion applied to WCS pixel coordinates
  (lines 174-175 and 269-270).
-/

/-- A NumPy float value: `none` models NaN, `some q` a (finite) real. -/
abbrev V : Type := Option ℚ

/-- `np.nanmean`: mean of the non-NaN entries; NaN when there are none
(empty or all-NaN input, lines 108 and 112 of the source). -/
def nanmean (l : List V) : V :=
  match l.filterMap id with
  | [] => none
  | x :: xs => some ((x :: xs).sum / ((x :: xs).length : ℚ))

/-- `np.nanvar` (and the square of `np.nanstd`): population variance
(ddof = 0) of the non-NaN entries; NaN when there are none. -/
def nanvar (l : List V) : V :=
  match l.filterMap id with
  | [] => none
  | x :: xs =>
    some ((((x :: xs).map fun y =>
      (y - (x :: xs).sum / ((x :: xs).length : ℚ)) ^ 2).sum) / ((x :: xs).length : ℚ))

/-- The boolean mask entry `np.abs(x) < mean + sigma_clip * nanstd(clip)`
(line 111).  `sd2` is the variance (`nanstd²`) of the current subset.  Any
NaN operand makes the IEEE comparison false, so the sample is removed.  For
finite operands the test `|x| < m + σ·√v` is encoded without square roots as
`|x| - m < 0 ∨ (|x| - m)² < σ²·v`, which is equivalent for `σ, v ≥ 0`. -/
def clipKeep (σ : ℚ) (mean sd2 x : V) : Bool :=
  match mean, sd2, x with
  | some m, some v, some q => decide (|q| - m < 0 ∨ (|q| - m) ^ 2 < σ ^ 2 * v)
  | _, _, _ => false

/-- One filtering pass `data_clip[np.abs(data_clip) < mean + σ·nanstd(data_clip)]`
(line 111). -/
def gbvStep (σ : ℚ) (mean : V) (clip : List V) : List V :=
  clip.filter fun x => clipKeep σ mean (nanvar clip) x

/-- The loop test `diff > tolerance` for
`diff = np.abs(mean - newmean)/(mean + newmean)` (lines 110 and 113), under
IEEE semantics: a NaN mean makes `diff` NaN and the comparison false; a zero
denominator gives NaN (loop stops) when the numerator is zero and +∞ (loop
continues, RuntimeWarnings being suppressed) when it is not. -/
def diffGtTol (mean newmean : V) (tol : ℚ) : Bool :=
  match mean, newmean with
  | some m, some m2 =>
    if m + m2 = 0 then decide (¬ |m - m2| = 0)
    else decide (|m - m2| / (m + m2) > tol)
  | _, _ => false

/-- The `while diff > tolerance` loop body of `get_background_variance`
(lines 110-114), with explicit fuel.  The state is the pair
`(mean, data_clip)`; each pass filters, recomputes the mean and re-tests.
The fuel is only a recursion bound: `gbvLoop_stable` below shows that
`length + 1` units always suffice. -/
def gbvLoop (σ tol : ℚ) : Nat → V → List V → V × List V
  | 0, mean, clip => (mean, clip)
  | fuel + 1, mean, clip =>
    let clip2 := gbvStep σ mean clip
    let newmean := nanmean clip2
    if diffGtTol mean newmean tol then gbvLoop σ tol fuel newmean clip2
    else (newmean, clip2)

/-- `get_background_variance(data, sigma_clip, tolerance)` (lines 92-115):
`diff` starts at 1, so the loop runs at all only when `1 > tolerance`; the
function returns `np.nanvar` of the final subset. -/
def get_background_variance (data : List V) (σ tol : ℚ) : V :=
  if tol < 1 then nanvar (gbvLoop σ tol (data.length + 1) (nanmean data) data).2
  else nanvar data

/-- Spec-side definition (refinement comparison for C2), following the
spec's words: a sample is removed exactly when its absolute value *exceeds*
`mean + sigmaClip·stddev(subset)` — i.e. it is kept when `|x| ≤` the
threshold, encoded without square roots as for `clipKeep`. -/
def specKeep (σ : ℚ) (mean sd2 x : V) : Bool :=
  match mean, sd2, x with
  | some m, some v, some q => decide (|q| - m ≤ 0 ∨ (|q| - m) ^ 2 ≤ σ ^ 2 * v)
  | _, _, _ => false

/-- Spec-side definition: the convergence test "the relative change
`|mean - mean'| / (mean + mean')` is at most tolerance", with the spec's own
edge case (a zero denominator counts as converged); a NaN mean also counts
as converged so that the description stays total. -/
def specRelChangeSat (mean newmean : V) (tol : ℚ) : Bool :=
  match mean, newmean with
  | some m, some m2 =>
    if m + m2 = 0 then true else decide (|m - m2| / (m + m2) ≤ tol)
  | _, _ => true

/-- Spec-side definition: the loop of the spec's §4.4 algorithm — remove,
recompute, and repeat *until* the relative change is at most tolerance
(check after the body, i.e. at least one pass). -/
def specLoop (σ tol : ℚ) : Nat → V → List V → V × List V
  | 0, mean, clip => (mean, clip)
  | fuel + 1, mean, clip =>
    let clip2 := clip.filter fun x => specKeep σ mean (nanvar clip) x
    let newmean := nanmean clip2
    if specRelChangeSat mean newmean tol then (newmean, clip2)
    else specLoop σ tol fuel newmean clip2

/-- Spec-side definition: the robust variance estimator exactly as the
spec's words describe it (claim C2). -/
def specRobustVariance (data : List V) (σ tol : ℚ) : V :=
  nanvar (specLoop σ tol (data.length + 1) (nanmean data) data).2

/-- Spec-side definition for the amended C2: the removal condition amended
to "absolute value equals or exceeds the threshold", i.e. keep only strictly
smaller values. -/
def specKeepAmended (σ : ℚ) (mean sd2 x : V) : Bool :=
  match mean, sd2, x with
  | some m, some v, some q => decide (|q| - m < 0 ∨ (|q| - m) ^ 2 < σ ^ 2 * v)
  | _, _, _ => false

/-- Spec-side definition for the amended C2: the loop with the amended
removal condition and the IEEE-evaluated stopping test. -/
def specLoopAmended (σ tol : ℚ) : Nat → V → List V → V × List V
  | 0, mean, clip => (mean, clip)
  | fuel + 1, mean, clip =>
    let clip2 := clip.filter fun x => specKeepAmended σ mean (nanvar clip) x
    let newmean := nanmean clip2
    if diffGtTol mean newmean tol then specLoopAmended σ tol fuel newmean clip2
    else (newmean, clip2)

/-- Spec-side definition for the amended C2: the estimator as described by
the amended claim. -/
def specRobustVarianceAmended (data : List V) (σ tol : ℚ) : V :=
  nanvar (specLoopAmended σ tol (data.length + 1) (nanmean data) data).2

/-- A 2-d NumPy array: explicit shape plus row-major data.  The shape is
carried separately so that, as in NumPy, an empty slice still knows its
column count (`arr[10:10, 2:5]` has shape `(0, 3)`). -/
structure NpArr where
  rows : Nat
  cols : Nat
  data : List (List ℚ)
deriving DecidableEq

/-- Well-formedness: the data really has the advertised shape. -/
def Rect (a : NpArr) : Bool :=
  (a.data.length == a.rows) && a.data.all fun r => r.length == a.cols

/-- Cell access (out-of-range reads default to 0; they are only used
in-range). -/
def entry (a : NpArr) (i j : Nat) : ℚ :=
  ((a.data.getD i []).getD j 0)

/-- `np.zeros((r, c))`. -/
def npZeros (r c : Nat) : NpArr :=
  ⟨r, c, List.replicate r (List.replicate c 0)⟩

/-- An all-ones array, used as concrete test data. -/
def npOnes (r c : Nat) : NpArr :=
  ⟨r, c, List.replicate r (List.replicate c 1)⟩

/-- A small concrete array with distinguishable entries. -/
def testMat : NpArr :=
  ⟨3, 3, [[1, 2, 3], [4, 5, 6], [7, 8, 9]]⟩

/-- Python slice-index normalisation for step 1 (`slice.indices`): a
negative index has the length added, then the result is clamped to
`[0, n]`. -/
def pySliceBound (n : Nat) (i : Int) : Nat :=
  let i2 := if i < 0 then i + n else i
  if i2 < 0 then 0 else if (n : Int) < i2 then n else i2.toNat

/-- `arr[r1:r2, c1:c2]` for a 2-d array: both axes are sliced with Python
semantics; the resulting shape is recorded even when an axis is empty. -/
def npSlice (arr : NpArr) (r1 r2 c1 c2 : Int) : NpArr :=
  let s0 := pySliceBound arr.rows r1
  let t0 := pySliceBound arr.rows r2
  let s1 := pySliceBound arr.cols c1
  let t1 := pySliceBound arr.cols c2
  ⟨t0 - s0, t1 - s1,
    ((arr.data.take t0).drop s0).map fun row => (row.take t1).drop s1⟩

/-- `temp = np.zeros((size, size)); temp[:s.rows, :s.cols] = s` (lines
143-144).  At every call site of `arr_slice` the slice is no larger than
`size` on each axis (the slicer spans `2·(size // 2)` indices), so the
NumPy assignment is exactly this top-left copy. -/
def setTopLeft (size : Nat) (s : NpArr) : NpArr :=
  ⟨size, size,
    (List.range size).map fun i =>
      (List.range size).map fun j =>
        if i < s.rows ∧ j < s.cols then entry s i j else 0⟩

/-- `arr_slice(arr, slicer, size)` (lines 129-146): slice, and pad with
zeros only when the slice is not square.  The padding branch allocates
`np.zeros((size, size))`, which raises `ValueError` when `size` is
negative; `none` models that exception (it is reachable only from the
non-square branch — a square slice is returned before `zeros` runs). -/
def arr_slice (arr : NpArr) (r1 r2 c1 c2 : Int) (size : Int) : Option NpArr :=
  let sliced := npSlice arr r1 r2 c1 c2
  if sliced.rows = sliced.cols then some sliced
  else if size < 0 then none
  else some (setTopLeft size.toNat sliced)

/-- `int(isize / 2.)` (line 284): true division then `int()`, which
truncates toward zero. -/
def pyHalf (s : Int) : Int :=
  if 0 ≤ s then s / 2 else -((-s) / 2)

/-- The extraction step of `cutouts` (lines 283-288): build
`np.s_[ipix1-h : ipix1+h, ipix0-h : ipix0+h]` with `h = int(isize/2.)`
(rows are indexed by `ipix[1]`, columns by `ipix[0]`) and apply
`arr_slice`. -/
def cutouts_slice (arr : NpArr) (ipix0 ipix1 : Int) (isize : Int) : Option NpArr :=
  let h := pyHalf isize
  arr_slice arr (ipix1 - h) (ipix1 + h) (ipix0 - h) (ipix0 + h) isize

/-- Exact `⌊log₂ q⌋` over ℚ (the script computes
`math.floor(math.log(ratio, 2))`, line 209; we model the exact real value).
For `q ≥ 1` it is the greatest `e` with `2^e ≤ q` (searched below the bound
`q.num.natAbs`, which `2^e ≤ q` forces `e` under); for `0 < q < 1` it is
`-(m+1)` for the greatest `m` with `q·2^m < 1` (every such `m` is below
`q.den`).  Values at `q ≤ 0` are irrelevant (that case errors out before the
logarithm is taken). -/
def log2floor (q : ℚ) : Int :=
  if 1 ≤ q then (Nat.findGreatest (fun e => (2 : ℚ) ^ e ≤ q) q.num.natAbs : Int)
  else -((Nat.findGreatest (fun e => q * 2 ^ e < 1) q.den : Int) + 1)

/-- The contour-level computation of `cutouts2` (lines 208-210) with the
hard-coded multiplier 3 generalised to `k`:
`p = floor(log2(peak/σ)); contours = k·σ·np.logspace(0, p, num=p+1, base=2)`.
`none` models the exceptions: `math.log` of a non-positive ratio raises, and
`np.logspace` raises on a negative sample count (`p ≤ -2`); `p = -1` gives
`num = 0`, an empty level array, with no error. -/
def contourLevels (σ peak k : ℚ) : Option (List ℚ) :=
  if peak / σ ≤ 0 then none
  else
    let p := log2floor (peak / σ)
    if p + 1 < 0 then none
    else some ((List.range (p + 1).toNat).map fun n => k * σ * 2 ^ n)

/-- Python `int()` applied to a real value (lines 175 and 270): truncation
toward zero. -/
def pyInt (q : ℚ) : Int :=
  if 0 ≤ q then ⌊q⌋ else ⌈q⌉

/-- Spec-side definition (for C10): round-half-to-even. -/
def roundHalfEven (q : ℚ) : Int :=
  if q - ⌊q⌋ < 1 / 2 then ⌊q⌋
  else if 1 / 2 < q - ⌊q⌋ then ⌊q⌋ + 1
  else if ⌊q⌋ % 2 = 0 then ⌊q⌋ else ⌊q⌋ + 1

/-- Spec-side definition (for C10): "round-half-to-even, then truncate to
integer" — the truncation of an already integral value is itself. -/
def specPixelIndex (q : ℚ) : Int :=
  pyInt ((roundHalfEven q : Int) : ℚ)

/-- One Python statement, abstracted to the global/builtin names it reads
and the local names it binds. -/
structure PyStmt where
  uses : List String
  binds : List String
deriving DecidableEq

/-- First name of `us` that is not bound in `env`. -/
def firstUnbound (env us : List String) : Option String :=
  us.find? fun u => !(env.contains u)

/-- Straight-line execution of a statement list under Python name
resolution: the first statement that reads an unbound name raises
`NameError` with that name (`Sum.inl name`); otherwise its bindings are
added and execution continues, completing with the final environment
(`Sum.inr env`).  External calls are assumed to return normally. -/
def runPy : List PyStmt → List String → Sum String (List String)
  | [], env => Sum.inr env
  | s :: rest, env =>
    match firstUnbound env s.uses with
    | some u => Sum.inl u
    | none => runPy rest (env ++ s.binds)

/-- Names visible inside `cutouts2`: the builtins it uses, the module-level
bindings of `cutout.py` (imports at lines 37-46 and the definitions at
lines 56-351), and its own parameters (line 149). -/
def cutouts2_env : List String :=
  ["print", "int",
   "time", "warnings", "wcs", "plt", "ndimage", "np", "reproject", "fits",
   "AstropyWarning", "verbose", "verboseprint", "Timer",
   "get_background_variance", "rms", "arr_slice", "cutouts2", "cutouts",
   "infrared_mosaic", "radio_image", "radio_rms", "targetRA", "targetDEC",
   "isize", "rsize", "vmax"]

/-- The statements of the body of `cutouts2` (lines 164-241), in order,
each with the names it reads and the names it binds.  The last entry is the
`return figure, axis, axtrans, imap` statement. -/
def cutouts2_body : List PyStmt :=
  [⟨[], ["PowerNorm"]⟩,
   ⟨[], ["Cutout2D"]⟩,
   ⟨["targetRA", "targetDEC"], ["target_radec"]⟩,
   ⟨["wcs", "infrared_mosaic"], ["imap_full"]⟩,
   ⟨["imap_full", "target_radec"], ["ipix"]⟩,
   ⟨["int", "ipix"], ["ipix"]⟩,
   ⟨["verboseprint", "fits", "infrared_mosaic"], []⟩,
   ⟨["verboseprint", "ipix"], []⟩,
   ⟨["wcs", "radio_image"], ["rmap_full"]⟩,
   ⟨["rmap_full", "target_radec"], ["rpix"]⟩,
   ⟨["int", "rpix"], ["rpix"]⟩,
   ⟨["verboseprint", "fits", "radio_image"], []⟩,
   ⟨["verboseprint", "rpix"], []⟩,
   ⟨["Cutout2D", "fits", "infrared_mosaic", "ipix", "isize", "wcs"], ["icut"]⟩,
   ⟨["icut"], ["imap"]⟩,
   ⟨["Cutout2D", "fits", "radio_image", "rpix", "rsize", "wcs"], ["rcut"]⟩,
   ⟨["rcut"], ["rmap"]⟩,
   ⟨["pyfits", "radio_image"], ["data"]⟩,
   ⟨["np", "get_background_variance", "data"], ["local_rms"]⟩,
   ⟨["print", "local_rms"], []⟩,
   ⟨["print", "radio_image"], []⟩,
   ⟨["np", "data", "local_rms"], ["highest_number_of_sigma"]⟩,
   ⟨["math", "highest_number_of_sigma"], ["use_this_highest_power"]⟩,
   ⟨["local_rms", "np", "use_this_highest_power"], ["contours"]⟩,
   ⟨["print", "contours"], []⟩,
   ⟨["reproject", "rcut", "rmap", "imap", "icut"], ["project_r", "footprint"]⟩,
   ⟨["plt"], ["figure"]⟩,
   ⟨["figure", "imap"], ["axis"]⟩,
   ⟨["axis"], ["axtrans"]⟩,
   ⟨["PowerNorm"], ["normalise"]⟩,
   ⟨["axis", "icut", "normalise", "vmax"], []⟩,
   ⟨["axis", "np", "project_r", "contours"], []⟩,
   ⟨["axis"], []⟩,
   ⟨["axis"], []⟩,
   ⟨["axis"], []⟩,
   ⟨["figure", "axis", "axtrans", "imap"], []⟩]
theorem diffGtTol_self (m : V) (tol : ℚ) (htol : 0 ≤ tol) : diffGtTol m m tol = false := by
  cases m with
  | none => rfl
  | some a =>
    simp only [diffGtTol, sub_self, abs_zero]
    split
    · simp
    · simp only [zero_div, decide_eq_false_iff_not, gt_iff_lt, not_lt]
      exact htol

theorem gbvStep_nanmean_self (σ tol : ℚ) (htol : 0 ≤ tol) (clip : List V)
    (h : diffGtTol (nanmean clip) (nanmean (gbvStep σ (nanmean clip) clip)) tol = true) :
    (gbvStep σ (nanmean clip) clip).length < clip.length := by
  rcases Nat.lt_or_ge (gbvStep σ (nanmean clip) clip).length clip.length with hlt | hge
  · exact hlt
  · exfalso
    have hsub : (gbvStep σ (nanmean clip) clip).Sublist clip := List.filter_sublist clip
    have heq : gbvStep σ (nanmean clip) clip = clip := hsub.eq_of_length_le hge
    rw [heq, diffGtTol_self _ _ htol] at h
    exact Bool.false_ne_true h

theorem gbvLoop_succ (σ tol : ℚ) (htol : 0 ≤ tol) :
    ∀ fuel (clip : List V) (mean : V), mean = nanmean clip → clip.length + 1 ≤ fuel →
      gbvLoop σ tol (fuel + 1) mean clip = gbvLoop σ tol fuel mean clip := by
  intro fuel
  induction fuel with
  | zero => intro clip mean _ hf; omega
  | succ f ih =>
    intro clip mean hm hf
    simp only [gbvLoop]
    by_cases hc : diffGtTol mean (nanmean (gbvStep σ mean clip)) tol = true
    · rw [if_pos hc, if_pos hc]
      apply ih
      · rfl
      · subst hm
        have := gbvStep_nanmean_self σ tol htol clip hc
        omega
    · rw [if_neg hc, if_neg hc]

theorem gbvLoop_stable (σ tol : ℚ) (htol : 0 ≤ tol) (data : List V) :
    ∀ fuel, data.length + 1 ≤ fuel →
      gbvLoop σ tol fuel (nanmean data) data =
        gbvLoop σ tol (data.length + 1) (nanmean data) data := by
  intro fuel
  induction fuel with
  | zero => intro hf; omega
  | succ f ih =>
    intro hf
    rcases Nat.lt_or_ge f (data.length + 1) with hlt | hge
    · have : f + 1 = data.length + 1 := by omega
      rw [this]
    · rw [gbvLoop_succ σ tol htol f data (nanmean data) rfl hge]
      exact ih hge
/-- C5: in `get_background_variance` the working subset never grows from one
iteration to the next (each filtering pass yields a sublist, hence a
sub-multiset, of the previous subset), and for every finite input sequence
the iteration terminates: with nonnegative tolerance, `data.length + 1`
loop passes always reach the exit condition, so any larger fuel gives the
same result. -/
theorem gbv_monotone_terminates (σ tol : ℚ) (htol : 0 ≤ tol) (data : List V) :
    (∀ (mean : V) (clip : List V), (gbvStep σ mean clip).Sublist clip) ∧
    ∀ fuel, data.length + 1 ≤ fuel →
      gbvLoop σ tol fuel (nanmean data) data =
        gbvLoop σ tol (data.length + 1) (nanmean data) data :=
  ⟨fun _ clip => List.filter_sublist clip, gbvLoop_stable σ tol htol data⟩

/-- Witness for C5 at `σ = 5`, `tol = 1/100`, `data = [1, 3]`. -/
theorem gbv_monotone_terminates_witness :
    (0 : ℚ) ≤ 1 / 100 ∧
    ((∀ (mean : V) (clip : List V), (gbvStep 5 mean clip).Sublist clip) ∧
     ∀ fuel, ([some 1, some 3] : List V).length + 1 ≤ fuel →
       gbvLoop 5 (1 / 100) fuel (nanmean [some 1, some 3]) [some 1, some 3] =
         gbvLoop 5 (1 / 100) (([some 1, some 3] : List V).length + 1)
           (nanmean [some 1, some 3]) [some 1, some 3]) :=
  ⟨by norm_num, gbv_monotone_terminates 5 (1 / 100) (by norm_num) [some 1, some 3]⟩

/-- Counterexample for C2: on `data = [1, 1]` (σ = 5, tol = 1/100) the code
removes both samples in the first pass — their absolute value *equals* the
threshold `mean + 5·stddev = 1` and the mask keeps only strictly smaller
values — and returns NaN, while the algorithm as the claim words it (remove
only values *exceeding* the threshold) keeps both samples and returns
variance 0. -/
theorem gbv_strict_clip_cex :
    get_background_variance [some 1, some 1] 5 (1 / 100) = none ∧
    specRobustVariance [some 1, some 1] 5 (1 / 100) = some 0 := by
  constructor
  · norm_num [get_background_variance, gbvLoop, gbvStep, clipKeep, nanmean, nanvar,
      diffGtTol, List.filterMap_cons, List.filterMap_nil, List.filter_cons, List.filter_nil]
  · norm_num [specRobustVariance, specLoop, specKeep, specRelChangeSat, nanmean, nanvar,
      List.filterMap_cons, List.filterMap_nil, List.filter_cons, List.filter_nil]

/-- C2 (amended): with the removal condition amended to "absolute value
equals or exceeds the threshold" and the stopping test read with IEEE
semantics, and provided `tolerance < 1` (the loop's entry sentinel
`diff = 1`), `get_background_variance` computes exactly the spec's
remove / recompute / repeat-until-converged algorithm and returns the
NaN-aware variance of the final subset. -/
theorem gbv_matches_amended_spec (data : List V) (σ tol : ℚ) (h : tol < 1) :
    get_background_variance data σ tol = specRobustVarianceAmended data σ tol := by
  have keep_eq : ∀ (m v x : V), specKeepAmended σ m v x = clipKeep σ m v x := by
    intro m v x
    cases m <;> cases v <;> cases x <;> rfl
  have loop_eq : ∀ fuel (mean : V) (clip : List V),
      specLoopAmended σ tol fuel mean clip = gbvLoop σ tol fuel mean clip := by
    intro fuel
    induction fuel with
    | zero => intro _ _; rfl
    | succ f ih =>
      intro mean clip
      simp only [specLoopAmended, gbvLoop, gbvStep]
      have hfil : (clip.filter fun x => specKeepAmended σ mean (nanvar clip) x) =
          clip.filter fun x => clipKeep σ mean (nanvar clip) x := by
        apply List.filter_congr
        intro x _
        exact keep_eq _ _ x
      rw [hfil]
      split
      · exact ih _ _
      · rfl
  unfold get_background_variance specRobustVarianceAmended
  rw [if_pos h, loop_eq]

/-- Witness for C2 (amended) at `data = [5, -1, -1]`, `σ = 1`,
`tol = 1/100`. -/
theorem gbv_matches_amended_spec_witness :
    (1 / 100 : ℚ) < 1 ∧
    get_background_variance [some 5, some (-1), some (-1)] 1 (1 / 100) =
      specRobustVarianceAmended [some 5, some (-1), some (-1)] 1 (1 / 100) :=
  ⟨by norm_num,
   gbv_matches_amended_spec [some 5, some (-1), some (-1)] 1 (1 / 100) (by norm_num)⟩

/-- Counterexample for C6: from `data = [5, -1, -1]` with `σ = 1` the first
pass moves the mean from 1 to -1, so the relative-change denominator
`mean + mean'` is zero with numerator 2; the quotient is +∞, the loop test
is *true* and the loop continues — the zero denominator is not treated as
converged. -/
theorem gbv_zero_den_cex :
    nanmean [some 5, some (-1), some (-1)] = some 1 ∧
    gbvStep 1 (some 1) [some 5, some (-1), some (-1)] = [some (-1), some (-1)] ∧
    nanmean [some (-1), some (-1)] = some (-1) ∧
    diffGtTol (some 1) (some (-1)) (1 / 100) = true := by
  refine ⟨?_, ?_, ?_, ?_⟩
  · norm_num [nanmean, List.filterMap_cons, List.filterMap_nil]
  · norm_num [gbvStep, clipKeep, nanvar, List.filterMap_cons, List.filterMap_nil,
      List.filter_cons, List.filter_nil]
  · norm_num [nanmean, List.filterMap_cons, List.filterMap_nil]
  · norm_num [diffGtTol]

/-- C6 (amended): when the denominator `mean + mean'` is zero the division
is still performed, under IEEE semantics: the loop test evaluates to false
(0/0 = NaN, loop stops) exactly when the two means are equal, and to true
(+∞ > tolerance, loop continues) exactly when they differ. -/
theorem diffGtTol_zero_den (m m2 tol : ℚ) (h : m + m2 = 0) :
    diffGtTol (some m) (some m2) tol = decide (m ≠ m2) := by
  simp only [diffGtTol, if_pos h, ne_eq, decide_not]
  congr 1
  simp [sub_eq_zero]

/-- Witness for C6 (amended) at `m = 1`, `m' = -1`, `tol = 1/100`. -/
theorem diffGtTol_zero_den_witness :
    (1 : ℚ) + (-1) = 0 ∧
    diffGtTol (some 1) (some (-1)) (1 / 100) = decide ((1 : ℚ) ≠ -1) :=
  ⟨by norm_num, diffGtTol_zero_den 1 (-1) (1 / 100) (by norm_num)⟩

/-- Counterexample for C8: on the empty sample sequence the estimator does
not fail — it returns NaN (the nan-variance of the empty final subset). -/
theorem gbv_empty_cex : get_background_variance [] 5 (1 / 100) = none := by
  norm_num [get_background_variance, gbvLoop, gbvStep, clipKeep, nanmean, nanvar,
    diffGtTol, List.filterMap_nil, List.filter_nil]

/-- C8 (amended): `get_background_variance` raises no error on an empty
input: for every `σ` and `tol` it returns NaN.  (There is also no iteration
cap anywhere in the function; none is needed, since the loop provably exits
within `data.length + 1` passes for nonnegative tolerance.) -/
theorem gbv_empty_nan (σ tol : ℚ) : get_background_variance [] σ tol = none := by
  unfold get_background_variance
  split
  · rfl
  · rfl
theorem Rect_iff (a : NpArr) :
    Rect a = true ↔ a.data.length = a.rows ∧ ∀ r ∈ a.data, r.length = a.cols := by
  simp [Rect, List.all_eq_true, Bool.and_eq_true, beq_iff_eq]

theorem pySliceBound_le (n : Nat) (i : Int) : pySliceBound n i ≤ n := by
  simp only [pySliceBound]
  split_ifs <;> omega

theorem pySliceBound_eq_toNat (n : Nat) (i : Int) (h1 : 0 ≤ i) (h2 : i ≤ (n : Int)) :
    pySliceBound n i = i.toNat := by
  simp only [pySliceBound]
  split_ifs <;> omega

theorem Rect_npSlice (arr : NpArr) (hre : Rect arr = true) (r1 r2 c1 c2 : Int) :
    Rect (npSlice arr r1 r2 c1 c2) = true := by
  rw [Rect_iff] at hre ⊢
  obtain ⟨hlen, hrows⟩ := hre
  constructor
  · simp only [npSlice, List.length_map, List.length_drop, List.length_take, hlen]
    rw [min_eq_left (pySliceBound_le arr.rows r2)]
  · intro r hr
    simp only [npSlice, List.mem_map] at hr
    obtain ⟨row, hrow, rfl⟩ := hr
    have hmem : row ∈ arr.data := List.mem_of_mem_take (List.mem_of_mem_drop hrow)
    simp only [npSlice, List.length_drop, List.length_take, hrows row hmem]
    rw [min_eq_left (pySliceBound_le arr.cols c2)]

theorem Rect_setTopLeft (size : Nat) (s : NpArr) : Rect (setTopLeft size s) = true := by
  rw [Rect_iff]
  constructor
  · simp [setTopLeft]
  · intro r hr
    simp only [setTopLeft, List.mem_map] at hr
    obtain ⟨i, _, rfl⟩ := hr
    simp [setTopLeft]

theorem Rect_arr_slice (arr : NpArr) (hre : Rect arr = true) (r1 r2 c1 c2 size : Int) :
    ∀ out, arr_slice arr r1 r2 c1 c2 size = some out → Rect out = true := by
  intro out
  show (if (npSlice arr r1 r2 c1 c2).rows = (npSlice arr r1 r2 c1 c2).cols
    then some (npSlice arr r1 r2 c1 c2)
    else if size < 0 then none
    else some (setTopLeft size.toNat (npSlice arr r1 r2 c1 c2))) = some out → Rect out = true
  split
  · intro h
    obtain rfl := Option.some.inj h
    exact Rect_npSlice arr hre r1 r2 c1 c2
  · split
    · intro h
      exact absurd h (by simp)
    · intro h
      obtain rfl := Option.some.inj h
      exact Rect_setTopLeft size.toNat _

theorem arr_slice_some_of_nonneg (arr : NpArr) (r1 r2 c1 c2 size : Int)
    (hsz : 0 ≤ size) : ∃ out, arr_slice arr r1 r2 c1 c2 size = some out := by
  show ∃ out, (if (npSlice arr r1 r2 c1 c2).rows = (npSlice arr r1 r2 c1 c2).cols
    then some (npSlice arr r1 r2 c1 c2)
    else if size < 0 then none
    else some (setTopLeft size.toNat (npSlice arr r1 r2 c1 c2))) = some out
  split
  · exact ⟨_, rfl⟩
  · rw [if_neg (not_lt.mpr hsz)]
    exact ⟨_, rfl⟩

theorem entry_setTopLeft (size : Nat) (s : NpArr) (i j : Nat) :
    entry (setTopLeft size s) i j =
      if i < size ∧ j < size then (if i < s.rows ∧ j < s.cols then entry s i j else 0)
      else 0 := by
  have hdata : (setTopLeft size s).data =
      (List.range size).map fun a =>
        (List.range size).map fun b =>
          if a < s.rows ∧ b < s.cols then entry s a b else 0 := rfl
  show ((setTopLeft size s).data.getD i []).getD j 0 = _
  rcases Nat.lt_or_ge i size with hi | hi
  · have houter : (setTopLeft size s).data.getD i [] =
        (List.range size).map fun b => if i < s.rows ∧ b < s.cols then entry s i b else 0 := by
      rw [hdata, List.getD_eq_getElem?_getD, List.getElem?_map, List.getElem?_range hi]
      rfl
    rw [houter]
    rcases Nat.lt_or_ge j size with hj | hj
    · have hinner : ((List.range size).map fun b =>
          if i < s.rows ∧ b < s.cols then entry s i b else 0).getD j 0 =
          if i < s.rows ∧ j < s.cols then entry s i j else 0 := by
        rw [List.getD_eq_getElem?_getD, List.getElem?_map, List.getElem?_range hj]
        rfl
      rw [hinner, if_pos (show i < size ∧ j < size from ⟨hi, hj⟩)]
    · have hinner : ((List.range size).map fun b =>
          if i < s.rows ∧ b < s.cols then entry s i b else 0).getD j 0 = 0 := by
        rw [List.getD_eq_getElem?_getD, List.getElem?_map,
          List.getElem?_eq_none (by simpa using hj)]
        rfl
      rw [hinner,
        if_neg (show ¬(i < size ∧ j < size) from fun hc => absurd hc.2 (Nat.not_lt.mpr hj))]
  · have houter : (setTopLeft size s).data.getD i [] = [] := by
      rw [hdata, List.getD_eq_getElem?_getD, List.getElem?_map,
        List.getElem?_eq_none (by simpa using hi)]
      rfl
    rw [houter,
      if_neg (show ¬(i < size ∧ j < size) from fun hc => absurd hc.1 (Nat.not_lt.mpr hi))]
    rfl

theorem entry_npSlice (arr : NpArr) (r1 r2 c1 c2 : Int) (i j : Nat)
    (hi : i < (npSlice arr r1 r2 c1 c2).rows) (hj : j < (npSlice arr r1 r2 c1 c2).cols) :
    entry (npSlice arr r1 r2 c1 c2) i j =
      entry arr (pySliceBound arr.rows r1 + i) (pySliceBound arr.cols c1 + j) := by
  simp only [npSlice] at hi hj
  have hi2 : pySliceBound arr.rows r1 + i < pySliceBound arr.rows r2 := by omega
  have hj2 : pySliceBound arr.cols c1 + j < pySliceBound arr.cols c2 := by omega
  have hdata : (npSlice arr r1 r2 c1 c2).data =
      ((arr.data.take (pySliceBound arr.rows r2)).drop (pySliceBound arr.rows r1)).map
        fun row => (row.take (pySliceBound arr.cols c2)).drop (pySliceBound arr.cols c1) :=
    rfl
  show ((npSlice arr r1 r2 c1 c2).data.getD i []).getD j 0 = _
  have houter : (npSlice arr r1 r2 c1 c2).data.getD i [] =
      ((arr.data.getD (pySliceBound arr.rows r1 + i) []).take
        (pySliceBound arr.cols c2)).drop (pySliceBound arr.cols c1) := by
    rw [hdata, List.getD_eq_getElem?_getD, List.getElem?_map, List.getElem?_drop,
      List.getElem?_take_of_lt hi2, List.getD_eq_getElem?_getD (l := arr.data)]
    cases arr.data[pySliceBound arr.rows r1 + i]? with
    | none => simp
    | some row => rfl
  rw [houter]
  show (((arr.data.getD (pySliceBound arr.rows r1 + i) []).take
      (pySliceBound arr.cols c2)).drop (pySliceBound arr.cols c1)).getD j 0 =
    ((arr.data.getD (pySliceBound arr.rows r1 + i) []).getD
      (pySliceBound arr.cols c1 + j) 0)
  rw [List.getD_eq_getElem?_getD, List.getElem?_drop, List.getElem?_take_of_lt hj2]
  exact (List.getD_eq_getElem?_getD _ _ _).symm
/-- C1 (code bug): evaluating the extraction at failing inputs.  On a 10×10
parent with `isize = 4`, the window around target pixel (20, 20) lies
entirely beyond the high edge: the slice is the empty square `(0, 0)`, the
padding branch is skipped, and the empty array is returned — not a `(4,4)`
zero array.  Around target pixel (10, 10) the clipped slice is the square
`(2, 2)` and is likewise returned unpadded. -/
theorem cutout_shape_bug :
    cutouts_slice (npZeros 10 10) 20 20 4 = some ⟨0, 0, []⟩ ∧
    cutouts_slice (npZeros 10 10) 10 10 4 = some ⟨2, 2, [[0, 0], [0, 0]]⟩ := by
  refine ⟨by decide, by decide⟩

/-- Counterexample for C7: neither claimed error boundary exists.  For
`isize = 0` (claimed `InvalidSizeError`) the extraction returns the empty
`(0,0)` array, and for a window with empty intersection (target pixel
(50, 50) on a 10×10 parent, claimed `TargetOutOfRangeError`) it likewise
returns the empty array — both ordinary return values.  The error the code
*can* raise sits elsewhere: for `isize = -4` at target (5, 1) the wrapped
slice `np.s_[3:-1, 7:3]` has the non-square shape `(6, 0)`, so the padding
branch runs `np.zeros((-4, -4))` and raises `ValueError`; yet `isize = -6`
at target (2, 2) wraps to a *square* `(4, 4)` slice of real data that is
returned without any error at all. -/
theorem cutouts_slice_no_error_cex :
    cutouts_slice (npZeros 10 10) 5 5 0 = some ⟨0, 0, []⟩ ∧
    cutouts_slice (npZeros 10 10) 50 50 4 = some ⟨0, 0, []⟩ ∧
    cutouts_slice (npZeros 10 10) 5 1 (-4) = none ∧
    cutouts_slice (npOnes 10 10) 2 2 (-6) =
      some ⟨4, 4, List.replicate 4 (List.replicate 4 1)⟩ := by
  refine ⟨by decide, by decide, by decide, by decide⟩

/-- C7 (amended): the code defines neither `InvalidSizeError` nor
`TargetOutOfRangeError`.  On a well-formed parent, every successful
extraction returns a well-formed array; for every `isize ≥ 0` the
extraction succeeds regardless of target position (zero-intersection
windows give an empty or all-zero array, not an error); and `isize = 0`
gives the empty `(0, 0)` array.  The only failure the extraction can
produce is the `ValueError` from `np.zeros((isize, isize))` when
`isize < 0` *and* the wrapped slice is non-square (see the
counterexample). -/
theorem cutouts_slice_total (arr : NpArr) (px py size : Int)
    (hre : Rect arr = true) :
    (∀ out, cutouts_slice arr px py size = some out → Rect out = true) ∧
    (0 ≤ size → ∃ out, cutouts_slice arr px py size = some out) ∧
    cutouts_slice arr px py 0 = some ⟨0, 0, []⟩ := by
  refine ⟨?_, ?_, ?_⟩
  · intro out hout
    exact Rect_arr_slice arr hre _ _ _ _ _ out hout
  · intro hsz
    exact arr_slice_some_of_nonneg arr _ _ _ _ size hsz
  · show arr_slice arr (py - pyHalf 0) (py + pyHalf 0) (px - pyHalf 0) (px + pyHalf 0) 0 =
      some ⟨0, 0, []⟩
    have h0 : pyHalf 0 = 0 := rfl
    rw [h0, sub_zero, add_zero, sub_zero, add_zero]
    show (if (npSlice arr py py px px).rows = (npSlice arr py py px px).cols
      then some (npSlice arr py py px px)
      else if (0 : Int) < 0 then none
      else some (setTopLeft (Int.toNat 0) (npSlice arr py py px px))) =
      some ⟨0, 0, []⟩
    have hrows : (npSlice arr py py px px).rows = 0 := Nat.sub_self _
    have hcols : (npSlice arr py py px px).cols = 0 := Nat.sub_self _
    have hdata : (npSlice arr py py px px).data = [] := by
      show ((arr.data.take (pySliceBound arr.rows py)).drop (pySliceBound arr.rows py)).map
        (fun row => (row.take (pySliceBound arr.cols px)).drop (pySliceBound arr.cols px)) = []
      rw [List.drop_eq_nil_of_le (List.length_take_le _ _), List.map_nil]
    rw [if_pos (hrows.trans hcols.symm)]
    cases hs : npSlice arr py py px px
    rw [hs] at hrows hcols hdata
    simp_all

/-- Witness for C7 (amended) on the all-zero 3×3 parent at `isize = 2`. -/
theorem cutouts_slice_total_witness :
    (∀ out, cutouts_slice (npZeros 3 3) 1 1 2 = some out → Rect out = true) ∧
    ((0 : Int) ≤ 2 → ∃ out, cutouts_slice (npZeros 3 3) 1 1 2 = some out) ∧
    cutouts_slice (npZeros 3 3) 1 1 0 = some ⟨0, 0, []⟩ :=
  cutouts_slice_total (npZeros 3 3) 1 1 2 (by decide)

/-- Counterexample for C9: on an all-ones 10×10 parent with `isize = 6` and
target pixel `(ipix0, ipix1) = (2, 5)`, the requested window
(rows `[2, 8)`, columns `[-1, 5)`) overlaps the parent in columns
`[0, 5)` — e.g. parent cell `(2, 0)`, holding 1, lies in the intersection —
yet the returned cutout is entirely zero: the negative column start wraps
around under Python slicing, the slice is empty, and nothing is copied. -/
theorem cutouts_slice_lowside_cex :
    cutouts_slice (npOnes 10 10) 2 5 6 = some (npZeros 6 6) ∧
    entry (npOnes 10 10) 2 0 = 1 := by
  refine ⟨by decide, by decide⟩

/-- C9 (amended): only when the window starts in-bounds on both axes
(non-negative slice starts) and the clipped slice is non-square does the
code copy the overlap — into the top-left of the `size × size` zero array,
which in that case *is* the intersection's offset within the window (the
window can then only be clipped on the high side); every other cell is
zero.  Windows crossing the low edge wrap around under Python slicing and
are covered by the counterexample, and square clipped slices skip the
padding entirely. -/
theorem arr_slice_highside_copy (arr : NpArr) (r1 r2 c1 c2 size : Int)
    (h1 : 0 ≤ r1) (h2 : r1 ≤ (arr.rows : Int)) (h3 : 0 ≤ c1) (h4 : c1 ≤ (arr.cols : Int))
    (hns : (npSlice arr r1 r2 c1 c2).rows ≠ (npSlice arr r1 r2 c1 c2).cols)
    (hR : (npSlice arr r1 r2 c1 c2).rows ≤ size.toNat)
    (hC : (npSlice arr r1 r2 c1 c2).cols ≤ size.toNat)
    (hsz : 0 ≤ size) :
    ∃ out, arr_slice arr r1 r2 c1 c2 size = some out ∧
      ∀ i j, entry out i j =
        if i < (npSlice arr r1 r2 c1 c2).rows ∧ j < (npSlice arr r1 r2 c1 c2).cols
        then entry arr (r1.toNat + i) (c1.toNat + j) else 0 := by
  refine ⟨setTopLeft size.toNat (npSlice arr r1 r2 c1 c2), ?_, ?_⟩
  · show (if (npSlice arr r1 r2 c1 c2).rows = (npSlice arr r1 r2 c1 c2).cols
      then some (npSlice arr r1 r2 c1 c2)
      else if size < 0 then none
      else some (setTopLeft size.toNat (npSlice arr r1 r2 c1 c2))) = _
    rw [if_neg hns, if_neg (not_lt.mpr hsz)]
  · intro i j
    rw [entry_setTopLeft]
    by_cases hin : i < (npSlice arr r1 r2 c1 c2).rows ∧ j < (npSlice arr r1 r2 c1 c2).cols
    · rw [if_pos (show i < size.toNat ∧ j < size.toNat from
          ⟨lt_of_lt_of_le hin.1 hR, lt_of_lt_of_le hin.2 hC⟩),
        if_pos hin, if_pos hin, entry_npSlice arr r1 r2 c1 c2 i j hin.1 hin.2,
        pySliceBound_eq_toNat arr.rows r1 h1 h2, pySliceBound_eq_toNat arr.cols c1 h3 h4]
    · rw [if_neg hin]
      by_cases hst : i < size.toNat ∧ j < size.toNat
      · rw [if_pos hst, if_neg hin]
      · rw [if_neg hst, if_neg hin]

/-- Witness for C9 (amended): slicing `testMat` (3×3) with rows `[1, 5)`
and columns `[0, 3)` clips the rows to `[1, 3)`, giving the non-square
`(2, 3)` slice, which is copied top-left into a 4×4 zero array. -/
theorem arr_slice_highside_copy_witness :
    (0 : Int) ≤ 1 ∧ (1 : Int) ≤ (testMat.rows : Int) ∧
    (0 : Int) ≤ 0 ∧ (0 : Int) ≤ (testMat.cols : Int) ∧
    (npSlice testMat 1 5 0 3).rows ≠ (npSlice testMat 1 5 0 3).cols ∧
    (npSlice testMat 1 5 0 3).rows ≤ (4 : Int).toNat ∧
    (npSlice testMat 1 5 0 3).cols ≤ (4 : Int).toNat ∧
    (0 : Int) ≤ 4 ∧
    ∃ out, arr_slice testMat 1 5 0 3 4 = some out ∧
      ∀ i j, entry out i j =
        if i < (npSlice testMat 1 5 0 3).rows ∧ j < (npSlice testMat 1 5 0 3).cols
        then entry testMat ((1 : Int).toNat + i) ((0 : Int).toNat + j) else 0 :=
  ⟨by decide, by decide, by decide, by decide, by decide, by decide, by decide, by decide,
   arr_slice_highside_copy testMat 1 5 0 3 4 (by decide) (by decide) (by decide) (by decide)
     (by decide) (by decide) (by decide) (by decide)⟩
theorem findGreatest_of_zero {P : Nat → Prop} [DecidablePred P] (h0 : P 0) :
    ∀ b, P (Nat.findGreatest P b)
  | 0 => by simpa using h0
  | b + 1 => by
    rw [Nat.findGreatest_succ]
    split
    · assumption
    · exact findGreatest_of_zero h0 b

theorem rat_le_num (q : ℚ) (hq : 1 ≤ q) : q ≤ ((q.num.natAbs : Int) : ℚ) := by
  have hnum : 0 < q.num := Rat.num_pos.mpr (lt_of_lt_of_le one_pos hq)
  have habs : ((q.num.natAbs : Int) : ℚ) = ((q.num : Int) : ℚ) := by
    rw [Int.natAbs_of_nonneg hnum.le]
  rw [habs]
  calc q = (q.num : ℚ) / (q.den : ℚ) := (Rat.num_div_den q).symm
    _ ≤ (q.num : ℚ) := by
        apply div_le_self
        · exact_mod_cast hnum.le
        · exact_mod_cast q.pos

/-- Counterexample for C4: with `σ = 1`, `peak = 1/2`, `k = 1` the ratio is
`1/2 ≤ 1`, for which the claim promises the single-element sequence
`[k·σ] = [1]`; the code computes `maxPower = -1`, hands `num = 0` to
`np.logspace`, and produces the *empty* level sequence instead. -/
theorem contourLevels_low_ratio_cex :
    contourLevels 1 (1 / 2) 1 = some [] ∧ ([] : List ℚ) ≠ [1 * 1] := by
  constructor
  · norm_num [contourLevels, log2floor, Nat.findGreatest]
  · simp

/-- C4 (amended): whenever `ratio = peak/σ ≥ 1` (with `σ, k > 0`), the
generator returns exactly the geometric sequence `k·σ·2^n` for
`n = 0 … maxPower` with `maxPower = ⌊log₂ ratio⌋` (characterised by
`2^maxPower ≤ ratio < 2^(maxPower+1)`); the sequence is strictly
increasing, strictly positive, and of length `maxPower + 1`.  The
single-element result `[k·σ]` occurs exactly in the sub-case
`1 ≤ ratio < 2`; ratios in `[1/2, 1)` give the empty sequence
(see the counterexample) and smaller or non-positive ratios raise. -/
theorem contourLevels_spec (σ peak k : ℚ) (p : Nat) (hσ : 0 < σ) (hk : 0 < k)
    (hr : 1 ≤ peak / σ) (hp : log2floor (peak / σ) = (p : Int)) :
    contourLevels σ peak k =
      some ((List.range (p + 1)).map fun n => k * σ * (2 : ℚ) ^ n) ∧
    ((List.range (p + 1)).map fun n => k * σ * (2 : ℚ) ^ n).length = p + 1 ∧
    ((List.range (p + 1)).map fun n => k * σ * (2 : ℚ) ^ n).Pairwise (· < ·) ∧
    (∀ x ∈ (List.range (p + 1)).map fun n => k * σ * (2 : ℚ) ^ n, 0 < x) ∧
    (2 : ℚ) ^ p ≤ peak / σ ∧ peak / σ < (2 : ℚ) ^ (p + 1) := by
  have hr0 : 0 < peak / σ := lt_of_lt_of_le one_pos hr
  have hfg : Nat.findGreatest (fun e => (2 : ℚ) ^ e ≤ peak / σ) (peak / σ).num.natAbs = p := by
    have hh := hp
    unfold log2floor at hh
    rw [if_pos hr] at hh
    exact_mod_cast hh
  have hP0 : (2 : ℚ) ^ 0 ≤ peak / σ := by simpa using hr
  have hPp : (2 : ℚ) ^ p ≤ peak / σ := by
    rw [← hfg]
    exact findGreatest_of_zero (P := fun e => (2 : ℚ) ^ e ≤ peak / σ) hP0 _
  have hrB : peak / σ < 2 ^ (peak / σ).num.natAbs := by
    refine lt_of_le_of_lt (rat_le_num _ hr) ?_
    have h2 : (((peak / σ).num.natAbs : Nat) : ℚ) < 2 ^ (peak / σ).num.natAbs := by
      exact_mod_cast Nat.lt_two_pow _
    exact_mod_cast h2
  have hpB : p < (peak / σ).num.natAbs := by
    rcases Nat.lt_or_ge p (peak / σ).num.natAbs with h | h
    · exact h
    · exfalso
      have hmono : (2 : ℚ) ^ (peak / σ).num.natAbs ≤ (2 : ℚ) ^ p :=
        pow_le_pow_right₀ one_le_two h
      exact absurd (lt_of_le_of_lt (hmono.trans hPp) hrB) (lt_irrefl _)
  have hPsucc : ¬ (2 : ℚ) ^ (p + 1) ≤ peak / σ :=
    Nat.findGreatest_is_greatest (P := fun e => (2 : ℚ) ^ e ≤ peak / σ)
      (by rw [hfg]; omega) (by omega)
  have hlt : peak / σ < (2 : ℚ) ^ (p + 1) := not_le.mp hPsucc
  refine ⟨?_, ?_, ?_, ?_, hPp, hlt⟩
  · have htn : ((p : Int) + 1).toNat = p + 1 := by omega
    simp only [contourLevels, hp, htn]
    rw [if_neg (not_le.mpr hr0), if_neg (by omega)]
  · simp
  · rw [List.pairwise_map]
    refine (List.pairwise_lt_range _).imp ?_
    intro a b hab
    exact mul_lt_mul_of_pos_left (pow_lt_pow_right₀ one_lt_two hab) (mul_pos hk hσ)
  · intro x hx
    simp only [List.mem_map, List.mem_range] at hx
    obtain ⟨n, _, rfl⟩ := hx
    positivity

/-- Witness for C4 (amended) at the spec's own example `σ = 1`, `peak = 8`,
`k = 1` (so `maxPower = 3`), together with the concrete value
`[1, 2, 4, 8]`. -/
theorem contourLevels_spec_witness :
    (0 < (1 : ℚ)) ∧ (1 ≤ (8 : ℚ) / 1) ∧ log2floor ((8 : ℚ) / 1) = ((3 : Nat) : Int) ∧
    (contourLevels 1 8 1 =
        some ((List.range (3 + 1)).map fun n => 1 * 1 * (2 : ℚ) ^ n) ∧
      ((List.range (3 + 1)).map fun n => 1 * 1 * (2 : ℚ) ^ n).length = 3 + 1 ∧
      ((List.range (3 + 1)).map fun n => 1 * 1 * (2 : ℚ) ^ n).Pairwise (· < ·) ∧
      (∀ x ∈ (List.range (3 + 1)).map fun n => 1 * 1 * (2 : ℚ) ^ n, 0 < x) ∧
      (2 : ℚ) ^ 3 ≤ (8 : ℚ) / 1 ∧ (8 : ℚ) / 1 < (2 : ℚ) ^ (3 + 1)) ∧
    contourLevels 1 8 1 = some [1, 2, 4, 8] :=
  ⟨by norm_num, by norm_num,
   by norm_num [log2floor, Nat.findGreatest],
   contourLevels_spec 1 8 1 3 (by norm_num) (by norm_num) (by norm_num)
     (by norm_num [log2floor, Nat.findGreatest]),
   by norm_num [contourLevels, log2floor, Nat.findGreatest, List.range_succ,
     show (4 : Int).toNat = 4 from rfl]⟩
/-- C3: executing the body of `cutouts2` under the module's name
environment stops with a `NameError` on the name `pyfits` (the
`data = pyfits.getdata(radio_image)` statement, line 204) before the
`return` statement — the final entry of the body — can run, so `cutouts2`
can never produce its `(figure, axis, axtrans, imap)` bundle; moreover
neither `pyfits` nor `math` (used at line 209) is bound by the module, by
the parameters, or by any statement of the body. -/
theorem cutouts2_raises_nameerror :
    runPy cutouts2_body cutouts2_env = Sum.inl "pyfits" ∧
    "pyfits" ∉ cutouts2_env ∧ "math" ∉ cutouts2_env ∧
    (∀ s ∈ cutouts2_body, "pyfits" ∉ s.binds ∧ "math" ∉ s.binds) := by
  refine ⟨by decide, by decide, by decide, by decide⟩

/-- Counterexample for C10: for the conversion result 2.7, round-half-to-
even followed by truncation gives 3, but the code's `int()` gives 2 — the
code truncates toward zero and performs no rounding at all. -/
theorem pyInt_not_round_cex :
    pyInt (27 / 10) = 2 ∧ specPixelIndex (27 / 10) = 3 := by
  constructor
  · norm_num [pyInt]
  · norm_num [specPixelIndex, roundHalfEven, pyInt]

/-- C10 (amended): the integer pixel index is obtained by plain truncation
toward zero (`int(x)`), with no prior rounding: for every real conversion
result `q`, the magnitude of `pyInt q` is `⌊|q|⌋` and its sign agrees with
`q`. -/
theorem pyInt_truncates (q : ℚ) :
    |((pyInt q : Int) : ℚ)| = ((⌊|q|⌋ : Int) : ℚ) ∧ 0 ≤ q * ((pyInt q : Int) : ℚ) := by
  rcases le_or_lt 0 q with hq | hq
  · rw [pyInt, if_pos hq]
    constructor
    · rw [abs_of_nonneg hq, abs_of_nonneg]
      exact_mod_cast Int.floor_nonneg.mpr hq
    · apply mul_nonneg hq
      exact_mod_cast Int.floor_nonneg.mpr hq
  · rw [pyInt, if_neg (not_le.mpr hq)]
    have hceil : (⌈q⌉ : Int) ≤ 0 := Int.ceil_le.mpr (by exact_mod_cast hq.le)
    constructor
    · rw [abs_of_neg hq, abs_of_nonpos (by exact_mod_cast hceil), Int.floor_neg]
      push_cast
      ring
    · have h1 : ((⌈q⌉ : Int) : ℚ) ≤ 0 := by exact_mod_cast hceil
      have := mul_nonneg (neg_nonneg.mpr hq.le) (neg_nonneg.mpr h1)
      simpa using this
